import Mathlib

/-!
# Verification of the music-bingo ticket generator

Shallow embedding of `src/musicbingo/generator.py` (class `GameGenerator`)
together with proofs about the properties claimed by the specification.

Modelling conventions:
* Python `int` is modelled by `Int` (or `Nat` where the source value is
  provably non-negative), with no wrap-around, matching Python's unbounded
  integers.
* Python `float` expressions are modelled by exact fractions (`Frac`, a
  kernel-computable unnormalised rational type); within the ranges the
  generator uses, the IEEE-754 double computations of the source are exact
  or agree with the exact value on every `int()`/`ceil()` observation.  The
  one place where the 53-bit mantissa is observable on in-range inputs
  (`GameGenerator.combinations`, which performs float true-division on huge
  factorials) is modelled explicitly by `floatRound53`.
* `secrets.randbelow` / `GameGenerator.randrange` / `random.shuffle` are
  modelled by an oracle stream `rand : Nat → Nat` carried in the generator
  state; `randbelow n` returns `rand ctr % n` so every sequence of draws the
  real program can make corresponds to some oracle.
* Unbounded `while` retry loops take a fuel parameter and return `none` when
  the fuel runs out; all claims are conditional on a completed run
  (`= some _`), mirroring "for every completed generation".
* `Progress.abort` is a flag in the state that the core never mutates
  (in the source it is set by the UI thread); claims assume it is `false`.
-/

/-- A song: only the fields the generator core reads.  `ref_id` is the
stable reference identity, `song_id` the prime number assigned per game. -/
structure Song where
  ref_id : Nat
  song_id : Nat
deriving DecidableEq, Repr

instance : Inhabited Song := ⟨⟨0, 0⟩⟩

/-- `BingoTicket` from generator.py: the list of songs on the card, the
derived key `card_id` (product of the songs' primes) and the ticket number
assigned by the distribution scheduler. -/
structure BingoTicket where
  card_id : Nat := 0
  card_tracks : List Song := []
  ticket_number : Option Nat := none
deriving DecidableEq, Repr

instance : Inhabited BingoTicket := ⟨{}⟩

/-- `GameMode` from options.py (used by generator.py via `options.mode`). -/
inductive GameMode where
  | bingo
  | quiz
  | clip
deriving DecidableEq, Repr

/-- The slice of `Options` that `GameGenerator` reads.
`songs_per_ticket` models the method `options.songs_per_ticket()`. -/
structure Options where
  mode : GameMode := .bingo
  game_id : String := ""
  songs_per_ticket : Nat := 15
  number_of_cards : Nat := 0
  page_order : Bool := true
deriving Repr

/-- `GameGenerator.MIN_CARDS`. -/
def MIN_CARDS : Nat := 15

/-! ## Exact fractions

`Frac` is an exact, unnormalised fraction type with a positive denominator,
used to model the float arithmetic of the generator.  Unlike Mathlib's `ℚ`
(whose arithmetic normalises with `Nat.gcd` and therefore does not reduce in
the kernel), every `Frac` operation evaluates by `decide`/`rfl`. -/

structure Frac where
  num : Int
  den : Int
  den_pos : 0 < den

/-- Build a fraction, moving the sign into the numerator (gives `0` for a
zero denominator, a case no claim relies on). -/
def Frac.mkSign (n d : Int) : Frac :=
  if h : 0 < d then ⟨n, d, h⟩
  else if h2 : d < 0 then ⟨-n, -d, by omega⟩
  else ⟨0, 1, one_pos⟩

instance : Add Frac :=
  ⟨fun a b => ⟨a.num * b.den + b.num * a.den, a.den * b.den,
    mul_pos a.den_pos b.den_pos⟩⟩

instance : Sub Frac :=
  ⟨fun a b => ⟨a.num * b.den - b.num * a.den, a.den * b.den,
    mul_pos a.den_pos b.den_pos⟩⟩

instance : Mul Frac :=
  ⟨fun a b => ⟨a.num * b.num, a.den * b.den, mul_pos a.den_pos b.den_pos⟩⟩

instance : Div Frac := ⟨fun a b => Frac.mkSign (a.num * b.den) (a.den * b.num)⟩

instance : NatCast Frac := ⟨fun n => ⟨n, 1, one_pos⟩⟩

instance : IntCast Frac := ⟨fun z => ⟨z, 1, one_pos⟩⟩

instance (n : Nat) : OfNat Frac n := ⟨⟨n, 1, one_pos⟩⟩

instance : OfScientific Frac :=
  ⟨fun m sign e =>
    if sign then ⟨m, 10 ^ e, pow_pos (by norm_num) e⟩
    else ⟨(m : Int) * 10 ^ e, 1, one_pos⟩⟩

instance : LT Frac := ⟨fun a b => a.num * b.den < b.num * a.den⟩

instance (a b : Frac) : Decidable (a < b) :=
  inferInstanceAs (Decidable (a.num * b.den < b.num * a.den))

/-- `math.floor` on an exact fraction (the denominator is positive, so
integer euclidean division is exactly the floor). -/
def Frac.floor (q : Frac) : Int := q.num / q.den

/-- `math.ceil` on an exact fraction. -/
def Frac.ceil (q : Frac) : Int := -((-q.num) / q.den)

/-- Number of binary shifts needed to bring `n` below `2^53` (fuel-driven so
that the kernel can evaluate it). -/
def shiftCount : Nat → Nat → Nat
  | _, 0 => 0
  | n, f + 1 => if n < 2 ^ 53 then 0 else shiftCount (n / 2) f + 1

/-- Round a natural number to the nearest IEEE-754 double (53-bit mantissa,
ties to even).  This is exactly what CPython's correctly-rounded int/int true
division produces when the mathematical quotient is the integer `n` (valid
below the float overflow threshold, far above every value used here). -/
def floatRound53 (n : Nat) : Nat :=
  let u := shiftCount n n
  if u = 0 then n
  else
    let q := n / 2 ^ u
    let r := n % 2 ^ u
    let h := 2 ^ (u - 1)
    if r < h then q * 2 ^ u
    else if h < r then (q + 1) * 2 ^ u
    else if q % 2 = 0 then q * 2 ^ u else (q + 1) * 2 ^ u

/-- `GameGenerator.combinations`: `int(factorial(total)/(factorial(select)*
factorial(total-select)))` guarded by `select > total`.  The `/` is Python
float true-division, hence the 53-bit rounding of the (exact, integral)
quotient. -/
def combinations (total select : Nat) : Nat :=
  if select > total then 0
  else floatRound53 (Nat.factorial total /
        (Nat.factorial select * Nat.factorial (total - select)))

/-- Python `round` on an exact value: round half to even. -/
def pyRound (q : Frac) : Int :=
  let f := q.floor
  let r := q - (f : Frac)
  if r < (0.5 : Frac) then f
  else if (0.5 : Frac) < r then f + 1
  else if f % 2 = 0 then f else f + 1

/-- Python `int(·)` on an exact value: truncation towards zero. -/
def pyInt (q : Frac) : Int :=
  if q.num < 0 then -((-q.num) / q.den) else q.num / q.den

/-- The minimum-song bound of `check_options`:
`int(round(1.5 * options.songs_per_ticket() + 0.5))`.  The float expression
`1.5*s + 0.5` is exact in doubles for every realistic `s`, so the exact
fraction model is faithful. -/
def minSongsRequired (s : Nat) : Int :=
  pyRound (1.5 * (s : Frac) + 0.5)

/-- The spec's formula for the minimum song count: `ceil(1.5*s + 0.5)`.
Written from the specification's words, for comparison with
`minSongsRequired` which is written from the code. -/
def specMinSongs (s : Nat) : Int :=
  Frac.ceil (1.5 * (s : Frac) + 0.5)

/-- The distinct `ValueError`s that `check_options` can raise, one
constructor per `raise` site. -/
inductive ConfigError where
  | emptySongs        -- "Song list cannot be empty"
  | quizTooManySongs  -- "Maximum number of songs for a quiz is {max_songs}"
  | invalidMode       -- "Invalid mode {mode}"
  | emptyGameId       -- "Game ID cannot be empty"
  | tooFewSongs       -- "At least {min_songs} songs are required"
  | tooManySongs      -- "Maximum number of songs is {MAX_SONGS}"
  | tooFewCards       -- "At least {MIN_CARDS} tickets are required"
  | tooManyCards      -- "{num_songs} songs only allows {max_cards} cards"
deriving DecidableEq, Repr

/-- `GameGenerator.check_options`.  `quizMaxSongs` models
`len(Assets.QUIZ_COUNTDOWN_POSITIONS)` and `maxSongs` models
`MAX_SONGS = len(PRIME_NUMBERS)`; both constants live in files outside the
core (assets.py, primes.py) so they are parameters here, and the theorems
quantify over them. -/
def check_options (quizMaxSongs maxSongs : Nat) (options : Options)
    (numSongs : Nat) : Except ConfigError Unit :=
  if numSongs = 0 then .error .emptySongs
  else if options.mode = .quiz then
    if numSongs > quizMaxSongs then .error .quizTooManySongs else .ok ()
  else if options.mode ≠ .bingo then .error .invalidMode
  else if options.game_id = "" then .error .emptyGameId
  else if (numSongs : Int) < minSongsRequired options.songs_per_ticket then
    .error .tooFewSongs
  else if numSongs > maxSongs then .error .tooManySongs
  else if options.number_of_cards < MIN_CARDS then .error .tooFewCards
  else if options.number_of_cards > combinations numSongs options.songs_per_ticket then
    .error .tooManyCards
  else .ok ()

/-- The set of reference ids of a list of songs. -/
def trackIds (l : List Song) : Finset Nat := (l.map Song.ref_id).toFinset

/-- `{track.ref_id for track in ticket.card_tracks}`: the pending set built
at the start of `get_when_ticket_wins`. -/
def ticketIds (ticket : BingoTicket) : Finset Nat :=
  (ticket.card_tracks.map Song.ref_id).toFinset

instance {ε α : Type} [DecidableEq ε] [DecidableEq α] :
    DecidableEq (Except ε α) := fun a b =>
  match a, b with
  | .ok x, .ok y =>
    if h : x = y then isTrue (by rw [h]) else isFalse (by simp [h])
  | .ok _, .error _ => isFalse (by simp)
  | .error _, .ok _ => isFalse (by simp)
  | .error x, .error y =>
    if h : x = y then isTrue (by rw [h]) else isFalse (by simp [h])

/-- The scan loop of `get_when_ticket_wins`: walk the play order with the
pending set of reference ids, recording the 1-based position of each match,
breaking as soon as the pending set is empty.  Returns the final pending set
and the last recorded position. -/
def winLoop : List Song → Finset Nat → Int → Nat → Finset Nat × Int
  | [], pending, last, _ => (pending, last)
  | s :: rest, pending, last, count =>
    let pl : Finset Nat × Int :=
      if s.ref_id ∈ pending then (pending.erase s.ref_id, (count : Int))
      else (pending, last)
    if pl.1 = ∅ then pl
    else winLoop rest pl.1 pl.2 (count + 1)

/-- `GameGenerator.get_when_ticket_wins`: `last_song = -1`, scan, raise
`ValueError` if the pending set is non-empty at the end. -/
def get_when_ticket_wins (tracks : List Song) (ticket : BingoTicket) :
    Except String Int :=
  let r := winLoop tracks (ticketIds ticket) (-1) 1
  if r.1 = ∅ then .ok r.2 else .error "ticket never wins"

/-- Number of songs of the play order the scan has to consume before the
pending set `pending` is exhausted (assuming it can be). -/
def coverSteps : Finset Nat → List Song → Nat
  | _, [] => 0
  | pending, s :: rest =>
    if pending.erase s.ref_id = ∅ then 1
    else 1 + coverSteps (pending.erase s.ref_id) rest

/-- Round-robin interleaving of the three page bands: the `while` loop of
`sort_cards_by_page` (pop from band 1, then band 2 and band 3 when
non-empty, while band 1 is non-empty). -/
def interleave3 : List BingoTicket → List BingoTicket → List BingoTicket →
    List BingoTicket
  | [], _, _ => []
  | a :: as_, [], [] => a :: interleave3 as_ [] []
  | a :: as_, [], c :: cs => a :: c :: interleave3 as_ [] cs
  | a :: as_, b :: bs, [] => a :: b :: interleave3 as_ bs []
  | a :: as_, b :: bs, c :: cs => a :: b :: c :: interleave3 as_ bs cs

/-- `GameGenerator.sort_cards_by_page`.  Band sizes are computed from
`options.number_of_cards` exactly as in the source:
`noc3c = int(math.ceil(number_of_cards/3))`, `noc3f = int(math.floor(...))`. -/
def sort_cards_by_page (options : Options) (cards : List BingoTicket) :
    List BingoTicket :=
  let noc3c : Nat := (Frac.ceil ((options.number_of_cards : Frac) / 3)).toNat
  let noc3f : Nat := (Frac.floor ((options.number_of_cards : Frac) / 3)).toNat
  let first_third := cards.take noc3c
  let second_third := (cards.drop noc3c).take noc3f
  let third_third := cards.drop (noc3c + noc3f)
  interleave3 first_third second_third third_third

/-- A ticket carrying only its number, for the concrete page-order example. -/
def numberedTicket (n : Nat) : BingoTicket :=
  { card_id := n, card_tracks := [], ticket_number := some n }

/-! ## Generator state and randomness

The mutable state of a `GameGenerator` during card generation: the Used-Key
Set `used_card_ids`, the random oracle (`rand`/`ctr` model `secrets`'s
entropy stream: the n-th draw observes `rand n`), and the cooperative abort
flag (set only by the UI thread in the source, never by this code). -/

structure GenState where
  used_card_ids : Finset Nat
  rand : Nat → Nat
  ctr : Nat
  abort : Bool

/-- `secrets.randbelow(n)`: an arbitrary value `< n` drawn from the oracle;
raises (`none`) for `n = 0` like the Python function. -/
def randbelowM (n : Nat) (st : GenState) : Option (Nat × GenState) :=
  if n = 0 then none
  else some (st.rand st.ctr % n, { st with ctr := st.ctr + 1 })

/-- `GameGenerator.randrange(start, stop) = start + secrets.randbelow(stop -
start)`: raises (`none`) when the range is empty. -/
def randrangeM (start stop : Int) (st : GenState) :
    Option (Int × GenState) :=
  if stop ≤ start then none
  else some (start + (st.rand st.ctr : Int) % (stop - start),
    { st with ctr := st.ctr + 1 })

/-- The inner `while not valid_index` loop of `select_songs_for_ticket`:
draw indices until one outside `picked_indices` appears. -/
def drawIndex (songs : List Song) (picked : Finset Nat) :
    Nat → GenState → Option (Nat × GenState)
  | 0, _ => none
  | fuel + 1, st =>
    match randbelowM songs.length st with
    | none => none
    | some (index, st1) =>
      if index ∉ picked then some (index, st1)
      else drawIndex songs picked fuel st1

/-- The outer `while not valid_card` loop of `select_songs_for_ticket`: one
iteration adds one song; when the card is full its key is checked against
the Used-Key Set — on a collision the whole draw restarts from scratch, on
success the key is registered.  If the abort flag is set the partial card is
returned as-is (the caller discards it). -/
def select_songs_go (songs : List Song) (numTracks : Nat) :
    Nat → Finset Nat → List Song → Nat → GenState →
    Option (BingoTicket × GenState)
  | 0, _, _, _, _ => none
  | fuel + 1, picked, tracks, cardId, st =>
    if st.abort then
      some ({ card_id := cardId, card_tracks := tracks }, st)
    else
      match drawIndex songs picked (fuel + 1) st with
      | none => none
      | some (index, st1) =>
        match songs[index]? with
        | none => none
        | some song =>
          let tracks2 := tracks ++ [song]
          let cardId2 := cardId * song.song_id
          if tracks2.length = numTracks then
            if cardId2 ∈ st1.used_card_ids then
              select_songs_go songs numTracks fuel ∅ [] 1 st1
            else
              some ({ card_id := cardId2, card_tracks := tracks2 },
                { st1 with used_card_ids := insert cardId2 st1.used_card_ids })
          else
            select_songs_go songs numTracks fuel (insert index picked)
              tracks2 cardId2 st1

/-- `GameGenerator.select_songs_for_ticket` (picked indices, card tracks and
card key start empty/1). -/
def select_songs_for_ticket (songs : List Song) (numTracks : Nat)
    (fuel : Nat) (st : GenState) : Option (BingoTicket × GenState) :=
  select_songs_go songs numTracks fuel ∅ [] 1 st

/-- The `while count < amount` loop of `generate_at_point`: compose a
ticket, return the cards so far on abort, propagate the win-point
consistency error, and otherwise accept the ticket exactly when its win
point is `len(tracks) - from_end` — releasing its key from the Used-Key Set
when it is rejected. -/
def generate_at_point_go (tracks : List Song) (options : Options)
    (amount from_end : Int) :
    Nat → Int → List BingoTicket → GenState →
    Option (List BingoTicket × GenState)
  | 0, count, cards, st => if amount ≤ count then some (cards, st) else none
  | fuel + 1, count, cards, st =>
    if amount ≤ count then some (cards, st)
    else
      match select_songs_for_ticket tracks options.songs_per_ticket
          (fuel + 1) st with
      | none => none
      | some (card, st1) =>
        if st1.abort then some (cards, st1)
        else
          match get_when_ticket_wins tracks card with
          | .error _ => none
          | .ok win_point =>
            if win_point ≠ (tracks.length : Int) - from_end then
              generate_at_point_go tracks options amount from_end fuel count
                cards
                { st1 with used_card_ids := st1.used_card_ids.erase card.card_id }
            else
              generate_at_point_go tracks options amount from_end fuel
                (count + 1) (cards ++ [card]) st1

/-- `GameGenerator.generate_at_point`. -/
def generate_at_point (tracks : List Song) (options : Options)
    (amount from_end : Int) (fuel : Nat) (st : GenState) :
    Option (List BingoTicket × GenState) :=
  generate_at_point_go tracks options amount from_end fuel 0 [] st

/-- Python `list.insert`: negative indices count from the end, out-of-range
indices clamp (an index past the end appends). -/
def pyInsert (l : List BingoTicket) (i : Int) (x : BingoTicket) :
    List BingoTicket :=
  let j : Int := if i < 0 then i + l.length else i
  let k : Nat := if j < 0 then 0 else min j.toNat l.length
  l.insertIdx k x

/-- The `for _ in range(0, num_cards)` loop of `insert_random_cards`:
each round draws a window position (`int(math.ceil(rand_point))` is the
identity on the integer draw), clamps it below `num_on_last + num_cards`,
generates one ticket winning `point` from the end and inserts it there. -/
def insert_random_cards_go (tracks : List Song) (options : Options)
    (point num_cards num_on_last : Int) (increment : Frac) (fuel : Nat) :
    Nat → Frac → List BingoTicket → GenState →
    Option (List BingoTicket × GenState)
  | 0, _, cards, st => some (cards, st)
  | k + 1, start_point, cards, st =>
    match randrangeM (Frac.ceil start_point)
        (Frac.ceil (start_point + increment)) st with
    | none => none
    | some (rp, st1) =>
      let rand_point := if rp ≥ num_on_last + num_cards
                        then num_on_last + num_cards - 1 else rp
      match generate_at_point tracks options 1 point fuel st1 with
      | none => none
      | some (cs, st2) =>
        match cs.head? with
        | none => none
        | some card =>
          insert_random_cards_go tracks options point num_cards num_on_last
            increment fuel k (start_point + increment)
            (pyInsert cards rand_point card) st2

/-- `GameGenerator.insert_random_cards`. -/
def insert_random_cards (tracks : List Song) (options : Options)
    (cards : List BingoTicket) (point num_cards num_on_last : Int)
    (fuel : Nat) (st : GenState) : Option (List BingoTicket × GenState) :=
  let increment : Frac :=
    ((cards.length : Frac) + (num_cards : Frac)) / (num_cards : Frac)
  insert_random_cards_go tracks options point num_cards num_on_last increment
    fuel num_cards.toNat 0 cards st

/-- `random.shuffle` modelled as an oracle-driven Fisher–Yates draw (the
source uses the `random` module's generator; any permutation it produces is
reproduced by a suitable oracle). -/
def shuffle_go : Nat → List BingoTicket → GenState →
    List BingoTicket × GenState
  | 0, l, st => (l, st)
  | k + 1, l, st =>
    if l.length = 0 then (l, st)
    else
      let j := st.rand st.ctr % l.length
      let st1 : GenState := { st with ctr := st.ctr + 1 }
      let r := shuffle_go k (l.eraseIdx j) st1
      (l.getD j default :: r.1, r.2)

def shuffle (l : List BingoTicket) (st : GenState) :
    List BingoTicket × GenState :=
  shuffle_go l.length l st

/-- The `for idx in range(0, amount_to_go)` loop of `generate_all_cards`
that generates the four extra near-end winners; the Bool is `true` when the
abort flag cut the loop short (the caller then returns its cards as-is). -/
def good_cards_go (tracks : List Song) (options : Options) (fuel : Nat) :
    Nat → Int → List BingoTicket → GenState →
    Option (Bool × List BingoTicket × GenState)
  | 0, _, good, st => some (false, good, st)
  | k + 1, offset, good, st =>
    if st.abort then some (true, good, st)
    else
      match generate_at_point tracks options 1 offset fuel st with
      | none => none
      | some (cs, st1) =>
        good_cards_go tracks options fuel k (offset + 1) (good ++ cs) st1

/-- The final `for card in good_cards` loop of `generate_all_cards`:
insert each shuffled extra winner into its equal-width window (clamped to
`number_of_cards - 1`); the Bool flags an abort exit. -/
def insert_good_go (number_of_cards : Int) (increment : Frac) :
    List BingoTicket → Frac → List BingoTicket → GenState →
    Option (Bool × List BingoTicket × GenState)
  | [], _, cards, st => some (false, cards, st)
  | card :: rest, start_point, cards, st =>
    if st.abort then some (true, cards, st)
    else
      match randrangeM (Frac.ceil start_point)
          (Frac.ceil (start_point + increment)) st with
      | none => none
      | some (rp, st1) =>
        let rand_point := min rp (number_of_cards - 1)
        insert_good_go number_of_cards increment rest
          (start_point + increment) (pyInsert cards rand_point card) st1

/-- `for idx, card in enumerate(cards, start=1): card.ticket_number = idx`. -/
def assignNumbers : Nat → List BingoTicket → List BingoTicket
  | _, [] => []
  | n, card :: rest =>
    { card with ticket_number := some n } :: assignNumbers (n + 1) rest

/-- The tier-count computation at the head of `generate_all_cards` (lines
547–569 of generator.py): the decayed float tier sizes, their `int()`
truncations, the fold-back to three tiers when the fourth tier would hold 0
or 1 tickets, and the rounding-remainder correction on the last-position
tier.  Returns `(num_on_last, num_second_last, num_third_last,
num_fourth_last, offset)`. -/
def tier_counts (T : Int) : Int × Int × Int × Int × Int :=
  let decay_rate : Frac := 0.65
  let num_on_last_f : Frac := (T : Frac) * decay_rate
  let num_second_last_f : Frac := ((T : Frac) - num_on_last_f) * decay_rate
  let num_third_last_f : Frac :=
    ((T : Frac) - num_on_last_f - num_second_last_f) * decay_rate
  let num_fourth_last_f : Frac :=
    ((T : Frac) - num_on_last_f - num_second_last_f - num_third_last_f) *
      decay_rate
  let num_on_last0 : Int := pyInt num_on_last_f
  let num_second_last : Int := pyInt num_second_last_f
  let num_third_last : Int := pyInt num_third_last_f
  let num_fourth_last0 : Int := max (pyInt num_fourth_last_f) 1
  let amount_left : Int := T - num_on_last0 - num_second_last -
    num_third_last - num_fourth_last0
  let amount_to_go : Int := 4
  let offset : Int :=
    if num_fourth_last0 = 0 ∨ num_fourth_last0 = 1 then 3 else 4
  let num_fourth_last : Int :=
    if num_fourth_last0 = 0 ∨ num_fourth_last0 = 1 then 0
    else num_fourth_last0
  let num_on_last1 : Int :=
    if num_fourth_last0 = 0 ∨ num_fourth_last0 = 1 then num_on_last0 + 1
    else num_on_last0
  let num_on_last : Int :=
    if amount_left < amount_to_go ∨ amount_left > amount_to_go
    then num_on_last1 - (amount_to_go - amount_left) else num_on_last1
  (num_on_last, num_second_last, num_third_last, num_fourth_last, offset)

/-- One guarded tier-insertion step of `generate_all_cards`:
`if num_x_last != 0: self.insert_random_cards(...)` (a skipped tier leaves
the card list and state unchanged). -/
def tier_phase (tracks : List Song) (options : Options)
    (cards : List BingoTicket) (point n num_on_last : Int) (fuel : Nat)
    (st : GenState) : Option (List BingoTicket × GenState) :=
  if n ≠ 0 then
    insert_random_cards tracks options cards point n num_on_last fuel st
  else pure (cards, st)

/-- `GameGenerator.generate_all_cards`: clear the Used-Key Set, compute the
tier counts (`tier_counts`), generate/insert the tiers, add the four extra
winners at shuffled random positions, number the cards 1..T and optionally
page-sort them. -/
def generate_all_cards (tracks : List Song) (options : Options) (fuel : Nat)
    (st : GenState) : Option (List BingoTicket × GenState) :=
  let st0 : GenState := { st with used_card_ids := ∅ }
  let T : Int := options.number_of_cards
  let (num_on_last, num_second_last, num_third_last, num_fourth_last,
    offset) := tier_counts T
  do
    let (cards1, st1) ←
      generate_at_point tracks options num_on_last 0 fuel st0
    let (cards2, st2) ←
      tier_phase tracks options cards1 1 num_second_last num_on_last fuel st1
    let (cards3, st3) ←
      tier_phase tracks options cards2 2 num_third_last num_on_last fuel st2
    let (cards4, st4) ←
      tier_phase tracks options cards3 3 num_fourth_last num_on_last fuel st3
    let (aborted1, good_cards, st5) ←
      good_cards_go tracks options fuel 4 offset [] st4
    if aborted1 then pure (cards4, st5)
    else
      let (shuffled, st6) := shuffle good_cards st5
      let increment : Frac := (T : Frac) / (4 : Frac)
      let (aborted2, cards5, st7) ←
        insert_good_go T increment shuffled 0 cards4 st6
      if aborted2 then pure (cards5, st7)
      else
        let numbered := assignNumbers 1 cards5
        if options.page_order then
          pure (sort_cards_by_page options numbered, st7)
        else pure (numbered, st7)

/-- The list of ticket keys of a card list. -/
def cardKeys (cards : List BingoTicket) : List Nat :=
  cards.map BingoTicket.card_id

def oracleC5 : Nat → Nat := fun n => [1].getD n 0

def stC5 : GenState :=
  { used_card_ids := ∅, rand := oracleC5, ctr := 0, abort := false }

/-- An 8-song pool with reference ids 1..8 and the first eight primes. -/
def songsC12 : List Song :=
  [⟨1, 2⟩, ⟨2, 3⟩, ⟨3, 5⟩, ⟨4, 7⟩, ⟨5, 11⟩, ⟨6, 13⟩, ⟨7, 17⟩, ⟨8, 19⟩]

/-- An oracle under which `generate_all_cards` completes a 15-ticket game
over `songsC12` with 2 songs per ticket. -/
def oracleC12 : Nat → Nat := fun n =>
  [7, 0, 7, 1, 7, 2, 7, 3, 7, 4, 7, 5, 7, 6,
   0, 6, 0, 0, 6, 1, 0, 6, 2,
   0, 5, 0,
   4, 0, 3, 0, 2, 0, 1, 0,
   0, 0, 0, 0,
   0, 0, 0, 0].getD n 0

def optsC12 : Options :=
  { mode := .bingo, game_id := "g", songs_per_ticket := 2,
    number_of_cards := 15, page_order := false }

def stC12 : GenState :=
  { used_card_ids := ∅, rand := oracleC12, ctr := 0, abort := false }

/-! ## Lemmas and theorems -/

@[simp] lemma Frac.add_num (a b : Frac) :
    (a + b).num = a.num * b.den + b.num * a.den := rfl

@[simp] lemma Frac.add_den (a b : Frac) : (a + b).den = a.den * b.den := rfl

@[simp] lemma Frac.sub_num (a b : Frac) :
    (a - b).num = a.num * b.den - b.num * a.den := rfl

@[simp] lemma Frac.sub_den (a b : Frac) : (a - b).den = a.den * b.den := rfl

@[simp] lemma Frac.mul_num (a b : Frac) : (a * b).num = a.num * b.num := rfl

@[simp] lemma Frac.mul_den (a b : Frac) : (a * b).den = a.den * b.den := rfl

@[simp] lemma Frac.natCast_num (n : Nat) : (n : Frac).num = n := rfl

@[simp] lemma Frac.natCast_den (n : Nat) : (n : Frac).den = 1 := rfl

@[simp] lemma Frac.intCast_num (z : Int) : (z : Frac).num = z := rfl

@[simp] lemma Frac.intCast_den (z : Int) : (z : Frac).den = 1 := rfl

@[simp] lemma Frac.lt_def (a b : Frac) :
    (a < b) = (a.num * b.den < b.num * a.den) := rfl

/-! ## Helper lemmas about the rounding primitives -/

lemma lit15_num : (1.5 : Frac).num = 15 := rfl

lemma lit15_den : (1.5 : Frac).den = 10 := rfl

lemma lit05_num : (0.5 : Frac).num = 5 := rfl

lemma lit05_den : (0.5 : Frac).den = 10 := rfl

/-- The code's minimum-song bound (`round`, i.e. half-to-even) versus the
spec's bound (`ceil`): they agree except when `songs_per_ticket ≡ 0 mod 4`,
where the code's bound is one lower. -/
lemma minSongsRequired_eq (s : Nat) :
    minSongsRequired s =
      if s % 4 = 0 then specMinSongs s - 1 else specMinSongs s := by
  unfold minSongsRequired specMinSongs pyRound Frac.ceil Frac.floor
  simp only [Frac.add_num, Frac.add_den, Frac.sub_num, Frac.sub_den,
    Frac.mul_num, Frac.mul_den, Frac.natCast_num, Frac.natCast_den,
    Frac.intCast_num, Frac.intCast_den, Frac.lt_def,
    lit15_num, lit15_den, lit05_num, lit05_den]
  norm_num
  split_ifs <;> omega

/-! ## C7: `combinations` versus the binomial coefficient -/

/-- C7: the spec's test values hold (`combinations(17,15) = 136`,
`combinations(5,10) = 0`, `combinations(0,0) = 1`), but the universal claim
"`combinations(total, select)` equals `C(total, select)` for all naturals"
fails: Python computes `int(factorial(total)/(...))` with float
true-division, which rounds the exact quotient to 53 significant bits, so
`combinations(100, 50)` returns `100891344545564202071714955264` instead of
`C(100,50) = 100891344545564193334812497256`.  The code contradicts its own
docstring ("calculates the number of combinations"); integer division was
clearly intended. -/
theorem C7_combinations_float_rounding :
    combinations 100 50 ≠ Nat.choose 100 50 ∧
    combinations 100 50 = 100891344545564202071714955264 ∧
    Nat.choose 100 50 = 100891344545564193334812497256 ∧
    combinations 17 15 = 136 ∧
    combinations 5 10 = 0 ∧
    combinations 0 0 = 1 :=
  ⟨by decide, by decide, by decide, by decide, by decide, by decide⟩

/-! ## C10: quiz-mode configuration checks -/

/-- C10: in QUIZ mode `check_options` fails exactly when the song list is
empty or longer than the quiz countdown capacity; the game-id, minimum-song,
minimum-ticket and combinatorial-maximum checks are all skipped. -/
theorem C10_quiz_check_options (quizMaxSongs maxSongs : Nat)
    (options : Options) (numSongs : Nat) (hmode : options.mode = .quiz) :
    (∃ e, check_options quizMaxSongs maxSongs options numSongs = .error e) ↔
      (numSongs = 0 ∨ numSongs > quizMaxSongs) := by
  unfold check_options
  rcases eq_or_ne numSongs 0 with h0 | h0
  · simp [h0]
  · rw [if_neg h0, if_pos hmode]
    constructor
    · rintro ⟨e, he⟩
      by_cases hq : numSongs > quizMaxSongs
      · exact Or.inr hq
      · rw [if_neg hq] at he
        exact absurd he (by simp)
    · rintro (h | h)
      · exact absurd h h0
      · exact ⟨.quizTooManySongs, by rw [if_pos h]⟩

/-- Concrete instantiation of `C10_quiz_check_options`. -/
theorem C10_quiz_check_options_witness :
    (∃ e, check_options 40 529 { mode := .quiz, number_of_cards := 0 } 41 = .error e) ↔
      ((41 : Nat) = 0 ∨ (41 : Nat) > 40) :=
  C10_quiz_check_options 40 529 { mode := .quiz, number_of_cards := 0 } 41 rfl

/-! ## C8: the minimum-song check in BINGO mode -/

/-- C8 counterexample: with `songs_per_ticket = 4` the code's minimum is
`round(6.5) = 6` (Python banker's rounding), not `ceil(6.5) = 7`, so a pool
of 6 songs passes the check although the claim says it must be rejected:
the claimed equivalence is false at this input. -/
theorem C8_counterexample :
    ¬ ((check_options 100 100
          { mode := .bingo, game_id := "g", songs_per_ticket := 4,
            number_of_cards := 15 } 6 = .error .tooFewSongs) ↔
        ((6 : Int) < specMinSongs 4)) := by
  decide

/-- C8 (amended): for every BINGO-mode configuration with a non-empty song
pool and non-empty game id, `check_options` raises the too-few-songs error
exactly when the pool size is below `round(1.5*s + 0.5)` (round half to
even), and that bound equals the spec's `ceil(1.5*s + 0.5)` except when
`s % 4 = 0`, where it is one less. -/
theorem C8_min_songs_amended (quizMaxSongs maxSongs : Nat) (options : Options)
    (numSongs : Nat) (hmode : options.mode = .bingo)
    (hid : options.game_id ≠ "") (hn : numSongs ≠ 0) :
    (check_options quizMaxSongs maxSongs options numSongs = .error .tooFewSongs ↔
      (numSongs : Int) < minSongsRequired options.songs_per_ticket) ∧
    minSongsRequired options.songs_per_ticket =
      (if options.songs_per_ticket % 4 = 0
        then specMinSongs options.songs_per_ticket - 1
        else specMinSongs options.songs_per_ticket) := by
  refine ⟨?_, minSongsRequired_eq _⟩
  unfold check_options
  rw [if_neg hn, hmode,
    if_neg (show ¬(GameMode.bingo = GameMode.quiz) by simp),
    if_neg (show ¬(GameMode.bingo ≠ GameMode.bingo) by simp), if_neg hid]
  constructor
  · intro he
    by_contra hlt
    rw [if_neg hlt] at he
    revert he
    split
    · simp
    · split
      · simp
      · split <;> simp
  · intro hlt
    rw [if_pos hlt]

/-- Concrete instantiation of `C8_min_songs_amended`: 22 songs with 15 songs
per ticket is rejected (`round(23.0) = 23 > 22`). -/
theorem C8_min_songs_amended_witness :
    (check_options 40 529
        { mode := .bingo, game_id := "18-04-22", songs_per_ticket := 15,
          number_of_cards := 24 } 22 = .error .tooFewSongs ↔
      (22 : Int) < minSongsRequired 15) ∧
    minSongsRequired 15 =
      (if 15 % 4 = 0 then specMinSongs 15 - 1 else specMinSongs 15) :=
  C8_min_songs_amended 40 529 _ 22 rfl (by decide) (by decide)

/-! ## The win-point scan: C3, C4, C9 -/

lemma coverSteps_cons (pending : Finset Nat) (s : Song) (rest : List Song) :
    coverSteps pending (s :: rest) =
      if pending.erase s.ref_id = ∅ then 1
      else 1 + coverSteps (pending.erase s.ref_id) rest := rfl

lemma trackIds_nil : trackIds [] = ∅ := rfl

lemma trackIds_cons (s : Song) (rest : List Song) :
    trackIds (s :: rest) = insert s.ref_id (trackIds rest) := by
  simp [trackIds]

lemma winLoop_cons (s : Song) (rest : List Song) (pending : Finset Nat)
    (last : Int) (count : Nat) :
    winLoop (s :: rest) pending last count =
      (let pl : Finset Nat × Int :=
        if s.ref_id ∈ pending then (pending.erase s.ref_id, (count : Int))
        else (pending, last)
      if pl.1 = ∅ then pl else winLoop rest pl.1 pl.2 (count + 1)) := rfl

lemma erase_subset_trackIds {pending : Finset Nat} {s : Song}
    {rest : List Song} (hsub : pending ⊆ trackIds (s :: rest)) :
    pending.erase s.ref_id ⊆ trackIds rest := by
  intro x hx
  have hmem := hsub (Finset.mem_of_mem_erase hx)
  rw [trackIds_cons] at hmem
  rcases Finset.mem_insert.mp hmem with h | h
  · exact absurd h (Finset.ne_of_mem_erase hx)
  · exact h

lemma not_mem_subset_trackIds {pending : Finset Nat} {s : Song}
    {rest : List Song} (hm : s.ref_id ∉ pending)
    (hsub : pending ⊆ trackIds (s :: rest)) :
    pending ⊆ trackIds rest := by
  intro x hx
  have hmem := hsub hx
  rw [trackIds_cons] at hmem
  rcases Finset.mem_insert.mp hmem with h | h
  · exact absurd (h ▸ hx) hm
  · exact h

/-- If every pending id occurs in the remaining play order, the scan ends
with an empty pending set and last position `count + coverSteps - 1`. -/
lemma winLoop_complete :
    ∀ (l : List Song) (pending : Finset Nat) (last : Int) (count : Nat),
      pending ≠ ∅ → pending ⊆ trackIds l →
      winLoop l pending last count =
        (∅, (count : Int) + (coverSteps pending l : Int) - 1) := by
  intro l
  induction l with
  | nil =>
    intro pending last count hne hsub
    rw [trackIds_nil] at hsub
    exact absurd (Finset.subset_empty.mp hsub) hne
  | cons s rest ih =>
    intro pending last count hne hsub
    rw [winLoop_cons]
    by_cases hm : s.ref_id ∈ pending
    · simp only [if_pos hm]
      by_cases he : pending.erase s.ref_id = ∅
      · rw [coverSteps_cons, if_pos he]
        simp only [he, if_pos rfl, Prod.mk.injEq]
        refine ⟨by trivial, by push_cast; ring⟩
      · simp only [if_neg he]
        rw [ih _ _ _ he (erase_subset_trackIds hsub), coverSteps_cons,
          if_neg he]
        simp only [Prod.mk.injEq]
        refine ⟨by trivial, by push_cast; ring⟩
    · simp only [if_neg hm, if_neg hne]
      rw [ih _ _ _ hne (not_mem_subset_trackIds hm hsub), coverSteps_cons,
        Finset.erase_eq_of_not_mem hm, if_neg hne]
      simp only [Prod.mk.injEq]
      refine ⟨by trivial, by push_cast; ring⟩

/-- `coverSteps` is the least number of leading songs of the play order
whose ids cover the pending set. -/
lemma coverSteps_least :
    ∀ (l : List Song) (pending : Finset Nat),
      pending ≠ ∅ → pending ⊆ trackIds l →
      1 ≤ coverSteps pending l ∧
      pending ⊆ trackIds (l.take (coverSteps pending l)) ∧
      ∀ q, pending ⊆ trackIds (l.take q) → coverSteps pending l ≤ q := by
  intro l
  induction l with
  | nil =>
    intro pending hne hsub
    rw [trackIds_nil] at hsub
    exact absurd (Finset.subset_empty.mp hsub) hne
  | cons s rest ih =>
    intro pending hne hsub
    rw [coverSteps_cons]
    by_cases he : pending.erase s.ref_id = ∅
    · rw [if_pos he]
      have hsingle : pending ⊆ {s.ref_id} := by
        rcases (Finset.erase_eq_empty_iff pending s.ref_id).mp he with h | h
        · exact absurd h hne
        · exact h ▸ Finset.Subset.refl _
      refine ⟨le_refl 1, ?_, ?_⟩
      · intro x hx
        have hxs := Finset.mem_singleton.mp (hsingle hx)
        simp [trackIds, hxs]
      · intro q hq
        match q with
        | 0 =>
          rw [List.take_zero, trackIds_nil] at hq
          exact absurd (Finset.subset_empty.mp hq) hne
        | q + 1 => omega
    · rw [if_neg he]
      obtain ⟨h1, hcov, hmin⟩ :=
        ih (pending.erase s.ref_id) he (erase_subset_trackIds hsub)
      refine ⟨by omega, ?_, ?_⟩
      · have htake : (s :: rest).take (1 + coverSteps (pending.erase s.ref_id) rest)
            = s :: rest.take (coverSteps (pending.erase s.ref_id) rest) := by
          rw [Nat.add_comm]
          rfl
        rw [htake, trackIds_cons]
        intro x hx
        by_cases hxs : x = s.ref_id
        · exact hxs ▸ Finset.mem_insert_self _ _
        · exact Finset.mem_insert_of_mem (hcov (Finset.mem_erase.mpr ⟨hxs, hx⟩))
      · intro q hq
        match q with
        | 0 =>
          rw [List.take_zero, trackIds_nil] at hq
          exact absurd (Finset.subset_empty.mp hq) hne
        | q + 1 =>
          have : pending.erase s.ref_id ⊆ trackIds (rest.take q) :=
            erase_subset_trackIds (by simpa using hq)
          have := hmin q this
          omega

lemma winLoop_empty_pending (l : List Song) (last : Int) (count : Nat) :
    winLoop l ∅ last count = (∅, last) := by
  cases l with
  | nil => rfl
  | cons s rest =>
    rw [winLoop_cons]
    simp

/-- An id that never occurs in the play order survives the scan. -/
lemma winLoop_missing :
    ∀ (l : List Song) (pending : Finset Nat) (last : Int) (count : Nat)
      (x : Nat), x ∈ pending → x ∉ trackIds l →
      x ∈ (winLoop l pending last count).1 := by
  intro l
  induction l with
  | nil => intro pending last count x hx _; exact hx
  | cons s rest ih =>
    intro pending last count x hx hnx
    rw [trackIds_cons] at hnx
    simp only [Finset.mem_insert, not_or] at hnx
    rw [winLoop_cons]
    by_cases hm : s.ref_id ∈ pending
    · simp only [if_pos hm]
      have hx' : x ∈ pending.erase s.ref_id :=
        Finset.mem_erase.mpr ⟨hnx.1, hx⟩
      split
      · exact hx'
      · exact ih _ _ _ _ hx' hnx.2
    · simp only [if_neg hm]
      split
      · exact hx
      · exact ih _ _ _ _ hx hnx.2

lemma ticketIds_subset {tracks : List Song} {ticket : BingoTicket}
    (h2 : ∀ s ∈ ticket.card_tracks, s.ref_id ∈ tracks.map Song.ref_id) :
    ticketIds ticket ⊆ trackIds tracks := by
  intro x hx
  unfold ticketIds at hx
  unfold trackIds
  simp only [List.mem_toFinset, List.mem_map] at hx ⊢
  obtain ⟨s, hs, rfl⟩ := hx
  simpa using h2 s hs

/-- C3: for a non-empty ticket all of whose songs occur in the play order,
`get_when_ticket_wins` returns the smallest 1-based position `p` such that
the ids of the ticket's songs are covered by the first `p` entries of the
play order. -/
theorem C3_win_point_is_least (tracks : List Song) (ticket : BingoTicket)
    (h1 : ticket.card_tracks ≠ [])
    (h2 : ∀ s ∈ ticket.card_tracks, s.ref_id ∈ tracks.map Song.ref_id) :
    ∃ p : Nat, 1 ≤ p ∧
      get_when_ticket_wins tracks ticket = .ok (p : Int) ∧
      ticketIds ticket ⊆ trackIds (tracks.take p) ∧
      ∀ q, ticketIds ticket ⊆ trackIds (tracks.take q) → p ≤ q := by
  have hne : ticketIds ticket ≠ ∅ := by
    unfold ticketIds
    cases h : ticket.card_tracks with
    | nil => exact absurd h h1
    | cons a l => simp
  have hsub := ticketIds_subset h2
  obtain ⟨hle, hcov, hmin⟩ := coverSteps_least tracks (ticketIds ticket) hne hsub
  refine ⟨coverSteps (ticketIds ticket) tracks, hle, ?_, hcov, hmin⟩
  unfold get_when_ticket_wins
  rw [winLoop_complete tracks _ (-1) 1 hne hsub]
  simp only [if_pos rfl]
  push_cast
  ring_nf

/-- Concrete instantiation of `C3_win_point_is_least`: a two-song ticket
whose songs sit at positions 2 and 3 of a three-song play order. -/
theorem C3_win_point_is_least_witness :
    ∃ p : Nat, 1 ≤ p ∧
      get_when_ticket_wins [⟨1, 2⟩, ⟨2, 3⟩, ⟨3, 5⟩]
        { card_id := 15, card_tracks := [⟨2, 3⟩, ⟨3, 5⟩] } = .ok (p : Int) ∧
      ticketIds { card_id := 15, card_tracks := [⟨2, 3⟩, ⟨3, 5⟩] } ⊆
        trackIds (([⟨1, 2⟩, ⟨2, 3⟩, ⟨3, 5⟩] : List Song).take p) ∧
      ∀ q, ticketIds { card_id := 15, card_tracks := [⟨2, 3⟩, ⟨3, 5⟩] } ⊆
        trackIds (([⟨1, 2⟩, ⟨2, 3⟩, ⟨3, 5⟩] : List Song).take q) → p ≤ q :=
  C3_win_point_is_least _ _ (by decide) (by decide)

/-- C4: for a non-empty ticket, `get_when_ticket_wins` raises an error if
and only if some song of the ticket does not occur in the play order (the
function itself is read-only: it builds a private pending set and never
mutates the play order or the ticket). -/
theorem C4_error_iff_missing_song (tracks : List Song) (ticket : BingoTicket)
    (_h1 : ticket.card_tracks ≠ []) :
    (∃ e, get_when_ticket_wins tracks ticket = .error e) ↔
      ∃ s ∈ ticket.card_tracks, s.ref_id ∉ tracks.map Song.ref_id := by
  constructor
  · rintro ⟨e, he⟩
    by_contra hall
    push_neg at hall
    have hsub := ticketIds_subset hall
    unfold get_when_ticket_wins at he
    by_cases hne : ticketIds ticket = ∅
    · rw [hne, winLoop_empty_pending] at he
      simp at he
    · rw [winLoop_complete tracks _ (-1) 1 hne hsub] at he
      simp at he
  · rintro ⟨s, hs, hnotin⟩
    have hx : s.ref_id ∈ ticketIds ticket := by
      unfold ticketIds
      simp only [List.mem_toFinset, List.mem_map]
      exact ⟨s, hs, rfl⟩
    have hnx : s.ref_id ∉ trackIds tracks := by
      unfold trackIds
      simpa [List.mem_toFinset] using hnotin
    have hmem := winLoop_missing tracks (ticketIds ticket) (-1) 1 s.ref_id hx hnx
    have hr : (winLoop tracks (ticketIds ticket) (-1) 1).1 ≠ ∅ := by
      intro h
      rw [h] at hmem
      exact absurd hmem (Finset.not_mem_empty _)
    unfold get_when_ticket_wins
    exact ⟨"ticket never wins", by rw [if_neg hr]⟩

/-- Concrete instantiation of `C4_error_iff_missing_song`: a ticket holding
a song absent from the play order. -/
theorem C4_error_iff_missing_song_witness :
    (∃ e, get_when_ticket_wins [⟨1, 2⟩]
        { card_id := 3, card_tracks := [⟨2, 3⟩] } = .error e) ↔
      ∃ s ∈ ({ card_id := 3, card_tracks := [⟨2, 3⟩] } : BingoTicket).card_tracks,
        s.ref_id ∉ (([⟨1, 2⟩] : List Song).map Song.ref_id) :=
  C4_error_iff_missing_song _ _ (by decide)

/-- C9: a ticket with an empty track list makes `get_when_ticket_wins`
return `-1` on every play order — no error, and not a valid 1-based
position. -/
theorem C9_empty_ticket_returns_neg_one (tracks : List Song)
    (ticket : BingoTicket) (h : ticket.card_tracks = []) :
    get_when_ticket_wins tracks ticket = .ok (-1) ∧ ¬ (1 ≤ (-1 : Int)) := by
  refine ⟨?_, by decide⟩
  have hids : ticketIds ticket = ∅ := by
    unfold ticketIds
    rw [h]
    rfl
  unfold get_when_ticket_wins
  rw [hids, winLoop_empty_pending]
  simp

/-- Concrete instantiation of `C9_empty_ticket_returns_neg_one`. -/
theorem C9_empty_ticket_returns_neg_one_witness :
    get_when_ticket_wins [⟨1, 2⟩] { card_id := 1, card_tracks := [] } = .ok (-1) ∧
      ¬ (1 ≤ (-1 : Int)) :=
  C9_empty_ticket_returns_neg_one _ _ (by decide)

/-! ## C6: the page sequencer -/

lemma interleave3_perm :
    ∀ (as bs cs : List BingoTicket),
      bs.length ≤ as.length → cs.length ≤ as.length →
      (interleave3 as bs cs).Perm (as ++ bs ++ cs) := by
  intro as
  induction as with
  | nil =>
    intro bs cs hb hc
    have hb0 : bs = [] := List.eq_nil_of_length_eq_zero (by simpa using hb)
    have hc0 : cs = [] := List.eq_nil_of_length_eq_zero (by simpa using hc)
    subst hb0; subst hc0
    simp [interleave3]
  | cons a as ih =>
    intro bs cs hb hc
    match bs, cs with
    | [], [] =>
      simpa [interleave3] using (ih [] [] (by simp) (by simp)).cons a
    | [], c :: cs' =>
      have h2 := ((ih [] cs' (by simp) (by simp at hc; omega)).cons c).cons a
      refine h2.trans ?_
      simp only [List.append_nil, List.nil_append, List.cons_append,
        List.append_assoc]
      exact (List.perm_middle).symm.cons a
    | b :: bs', [] =>
      have h2 := ((ih bs' [] (by simp at hb; omega) (by simp)).cons b).cons a
      refine h2.trans ?_
      simp only [List.append_nil, List.nil_append, List.cons_append,
        List.append_assoc]
      exact (List.perm_middle).symm.cons a
    | b :: bs', c :: cs' =>
      have h2 := (((ih bs' cs' (by simp at hb; omega)
        (by simp at hc; omega)).cons c).cons b).cons a
      refine h2.trans ?_
      simp only [List.cons_append, List.append_assoc]
      refine List.Perm.cons a ?_
      refine List.Perm.trans ?_ (List.perm_middle).symm
      refine List.Perm.cons b ?_
      have hm := @List.perm_middle _ c (as ++ bs') cs'
      simpa [List.append_assoc] using hm.symm

lemma frac_natCast_div_three (n : Nat) :
    ((n : Frac) / 3) = ⟨(n : Int), 3, by norm_num⟩ := by
  show Frac.mkSign ((n : Int) * 1) (1 * 3) = _
  norm_num [Frac.mkSign]

lemma page_band_ceil (n : Nat) :
    (Frac.ceil ((n : Frac) / 3)).toNat = (n + 2) / 3 := by
  rw [frac_natCast_div_three]
  unfold Frac.ceil
  simp only
  omega

lemma page_band_floor (n : Nat) :
    (Frac.floor ((n : Frac) / 3)).toNat = n / 3 := by
  rw [frac_natCast_div_three]
  unfold Frac.floor
  simp only
  omega

lemma sort_cards_by_page_perm (options : Options) (cards : List BingoTicket)
    (h : cards.length = options.number_of_cards) :
    (sort_cards_by_page options cards).Perm cards := by
  unfold sort_cards_by_page
  rw [page_band_ceil, page_band_floor]
  have hperm := interleave3_perm
    (cards.take ((options.number_of_cards + 2) / 3))
    ((cards.drop ((options.number_of_cards + 2) / 3)).take
      (options.number_of_cards / 3))
    (cards.drop ((options.number_of_cards + 2) / 3 +
      options.number_of_cards / 3))
    (by
      simp only [List.length_take, List.length_drop, h]
      omega)
    (by
      simp only [List.length_take, List.length_drop, h]
      omega)
  refine hperm.trans ?_
  rw [List.append_assoc]
  have hdrop : (cards.drop ((options.number_of_cards + 2) / 3)).take
        (options.number_of_cards / 3) ++
      cards.drop ((options.number_of_cards + 2) / 3 +
        options.number_of_cards / 3) =
      cards.drop ((options.number_of_cards + 2) / 3) := by
    have hdd : cards.drop ((options.number_of_cards + 2) / 3 +
          options.number_of_cards / 3) =
        (cards.drop ((options.number_of_cards + 2) / 3)).drop
          (options.number_of_cards / 3) := by
      rw [List.drop_drop]
    rw [hdd, List.take_append_drop]
  rw [hdrop, List.take_append_drop]

/-- C6: on a full ticket list (`len(cards) = number_of_cards`) the page
sequencer is a permutation — every ticket of the input appears exactly once
in the output (ticket numbers, stored inside the tickets, are untouched) —
and on the concrete 9-ticket list numbered 1..9 it produces the order
1,4,7,2,5,8,3,6,9. -/
theorem C6_page_sequencer :
    (∀ (options : Options) (cards : List BingoTicket),
        cards.length = options.number_of_cards →
        (sort_cards_by_page options cards).Perm cards) ∧
      sort_cards_by_page { number_of_cards := 9 }
          ((List.range' 1 9).map numberedTicket) =
        [numberedTicket 1, numberedTicket 4, numberedTicket 7,
         numberedTicket 2, numberedTicket 5, numberedTicket 8,
         numberedTicket 3, numberedTicket 6, numberedTicket 9] :=
  ⟨sort_cards_by_page_perm, by decide⟩

/-- Concrete instantiation of `C6_page_sequencer`'s universal part. -/
theorem C6_page_sequencer_witness :
    (sort_cards_by_page { number_of_cards := 9 }
        ((List.range' 1 9).map numberedTicket)).Perm
      ((List.range' 1 9).map numberedTicket) :=
  C6_page_sequencer.1 { number_of_cards := 9 } _ (by decide)

lemma lit065_num : (0.65 : Frac).num = 65 := rfl

lemma lit065_den : (0.65 : Frac).den = 100 := by decide

lemma tier_counts_spec (T : Int) (hT : 15 ≤ T) :
    0 ≤ (tier_counts T).1 ∧ 0 ≤ (tier_counts T).2.1 ∧
    0 ≤ (tier_counts T).2.2.1 ∧ 0 ≤ (tier_counts T).2.2.2.1 ∧
    (tier_counts T).1 + (tier_counts T).2.1 + (tier_counts T).2.2.1 +
      (tier_counts T).2.2.2.1 + 4 = T := by
  unfold tier_counts pyInt
  simp only [Frac.add_num, Frac.add_den, Frac.sub_num, Frac.sub_den,
    Frac.mul_num, Frac.mul_den, Frac.natCast_num, Frac.natCast_den,
    Frac.intCast_num, Frac.intCast_den, lit065_num, lit065_den]
  norm_num
  split_ifs <;> omega

lemma randbelowM_state {n : Nat} {st : GenState} {p : Nat × GenState}
    (h : randbelowM n st = some p) :
    p.2.used_card_ids = st.used_card_ids ∧ p.2.abort = st.abort := by
  unfold randbelowM at h
  split at h
  · exact absurd h (by simp)
  · cases h
    exact ⟨rfl, rfl⟩

lemma randrangeM_state {a b : Int} {st : GenState} {p : Int × GenState}
    (h : randrangeM a b st = some p) :
    p.2.used_card_ids = st.used_card_ids ∧ p.2.abort = st.abort := by
  unfold randrangeM at h
  split at h
  · exact absurd h (by simp)
  · cases h
    exact ⟨rfl, rfl⟩

lemma drawIndex_state (songs : List Song) (picked : Finset Nat) :
    ∀ (fuel : Nat) (st : GenState) (p : Nat × GenState),
      drawIndex songs picked fuel st = some p →
      p.2.used_card_ids = st.used_card_ids ∧ p.2.abort = st.abort := by
  intro fuel
  induction fuel with
  | zero => intro st p h; exact absurd h (by simp [drawIndex])
  | succ fuel ih =>
    intro st p h
    rw [drawIndex] at h
    rcases hrb : randbelowM songs.length st with _ | ⟨i, st1⟩ <;>
      rw [hrb] at h
    · simp at h
    · obtain ⟨hu, ha⟩ := randbelowM_state hrb
      simp only at h
      split at h
      · cases h
        exact ⟨hu, ha⟩
      · obtain ⟨hu2, ha2⟩ := ih st1 p h
        exact ⟨hu2.trans hu, ha2.trans ha⟩

/-- What a successful `select_songs_for_ticket` run does to the state: the
composed card's key was not in the Used-Key Set and is now registered, the
abort flag is untouched, and the card has no ticket number yet. -/
lemma select_songs_go_spec (songs : List Song) (numTracks : Nat) :
    ∀ (fuel : Nat) (picked : Finset Nat) (tracks : List Song) (cardId : Nat)
      (st : GenState) (card : BingoTicket) (st1 : GenState),
      st.abort = false →
      select_songs_go songs numTracks fuel picked tracks cardId st =
        some (card, st1) →
      st1.abort = false ∧ card.card_id ∉ st.used_card_ids ∧
      st1.used_card_ids = insert card.card_id st.used_card_ids ∧
      card.ticket_number = none := by
  intro fuel
  induction fuel with
  | zero => intro _ _ _ _ _ _ ha h; exact absurd h (by simp [select_songs_go])
  | succ fuel ih =>
    intro picked tracks cardId st card st1 ha h
    rw [select_songs_go] at h
    rw [if_neg (by simp [ha])] at h
    rcases hdi : drawIndex songs picked (fuel + 1) st with _ | ⟨index, stA⟩ <;>
      rw [hdi] at h
    · simp at h
    · obtain ⟨hAu, hAa⟩ := drawIndex_state songs picked _ _ _ hdi
      simp only at hAu hAa
      simp only at h
      rcases hsi : songs[index]? with _ | song <;> rw [hsi] at h
      · simp at h
      · simp only at h
        split at h
        · split at h
          · obtain ⟨h1, h2, h3, h4⟩ := ih ∅ [] 1 stA card st1 (hAa.trans ha) h
            rw [hAu] at h2 h3
            exact ⟨h1, h2, h3, h4⟩
          · next hdup =>
              cases h
              refine ⟨hAa.trans ha, ?_, ?_, rfl⟩
              · rw [← hAu]; exact hdup
              · rw [hAu]
        · obtain ⟨h1, h2, h3, h4⟩ :=
            ih (insert index picked) (tracks ++ [song]) (cardId * song.song_id)
              stA card st1 (hAa.trans ha) h
          rw [hAu] at h2 h3
          exact ⟨h1, h2, h3, h4⟩

/-- What a successful `generate_at_point` loop run produces: the new
tickets' keys are fresh and pairwise distinct, exactly the accepted keys are
added to the Used-Key Set (rejected ones are released), the number of new
tickets is `amount - count`, and every new ticket wins at
`len(tracks) - from_end`. -/
lemma generate_at_point_go_spec (tracks : List Song) (options : Options)
    (amount from_end : Int) :
    ∀ (fuel : Nat) (count : Int) (cards0 : List BingoTicket) (st : GenState)
      (out : List BingoTicket) (st' : GenState),
      st.abort = false →
      generate_at_point_go tracks options amount from_end fuel count cards0
        st = some (out, st') →
      ∃ new, out = cards0 ++ new ∧ st'.abort = false ∧
        st'.used_card_ids = st.used_card_ids ∪ (cardKeys new).toFinset ∧
        (cardKeys new).Nodup ∧
        (∀ i ∈ cardKeys new, i ∉ st.used_card_ids) ∧
        ((new.length : Int) = max (amount - count) 0) ∧
        (∀ c ∈ new, get_when_ticket_wins tracks c =
          .ok ((tracks.length : Int) - from_end)) := by
  intro fuel
  induction fuel with
  | zero =>
    intro count cards0 st out st' ha h
    rw [generate_at_point_go] at h
    split at h
    · cases h
      refine ⟨[], by simp, ha, by simp [cardKeys], by simp [cardKeys],
        by simp [cardKeys], by simp; omega, by simp⟩
    · simp at h
  | succ fuel ih =>
    intro count cards0 st out st' ha h
    rw [generate_at_point_go] at h
    split at h
    · next hcnt =>
      cases h
      refine ⟨[], by simp, ha, by simp [cardKeys], by simp [cardKeys],
        by simp [cardKeys], by simp; omega, by simp⟩
    · next hcnt =>
      rcases hsel : select_songs_for_ticket tracks options.songs_per_ticket
          (fuel + 1) st with _ | ⟨card, stA⟩ <;> rw [hsel] at h
      · simp at h
      · obtain ⟨hAa, hAfresh, hAu, hAnum⟩ :=
          select_songs_go_spec tracks options.songs_per_ticket (fuel + 1)
            ∅ [] 1 st card stA ha hsel
        simp only at h
        rw [if_neg (by simp [hAa])] at h
        rcases hwin : get_when_ticket_wins tracks card with e | w <;>
          rw [hwin] at h
        · simp at h
        · simp only at h
          split at h
          · next hne =>
            -- rejected: key released, loop again with the same count
            obtain ⟨new, h1, h2, h3, h4, h5, h6, h7⟩ :=
              ih count cards0
                { stA with used_card_ids := stA.used_card_ids.erase card.card_id }
                out st' hAa h
            have herase :
                ({ stA with used_card_ids := stA.used_card_ids.erase card.card_id }
                  : GenState).used_card_ids = st.used_card_ids := by
              simp only [hAu]
              exact Finset.erase_insert hAfresh
            rw [herase] at h3 h5
            exact ⟨new, h1, h2, h3, h4, h5, h6, h7⟩
          · next hne =>
            -- accepted
            have hwt : w = (tracks.length : Int) - from_end := by
              by_contra hc
              exact hne hc
            obtain ⟨new, h1, h2, h3, h4, h5, h6, h7⟩ :=
              ih (count + 1) (cards0 ++ [card]) stA out st' hAa h
            refine ⟨card :: new, by simpa using h1, h2, ?_, ?_, ?_, ?_, ?_⟩
            · rw [h3, hAu]
              simp [cardKeys, Finset.insert_union, Finset.union_insert]
            · simp only [cardKeys, List.map_cons, List.nodup_cons]
              refine ⟨fun hmem => ?_, h4⟩
              have := h5 _ hmem
              rw [hAu] at this
              exact this (Finset.mem_insert_self _ _)
            · intro i hi
              rcases List.mem_cons.mp hi with hi | hi
              · exact hi ▸ hAfresh
              · have := h5 _ hi
                rw [hAu] at this
                intro hmem
                exact this (Finset.mem_insert_of_mem hmem)
            · simp only [List.length_cons]
              push_cast
              omega
            · intro c hc
              rcases List.mem_cons.mp hc with hc | hc
              · rw [hc, hwin, hwt]
              · exact h7 c hc

lemma generate_at_point_spec {tracks : List Song} {options : Options}
    {amount from_end : Int} {fuel : Nat} {st : GenState}
    {out : List BingoTicket} {st' : GenState}
    (ha : st.abort = false)
    (h : generate_at_point tracks options amount from_end fuel st =
      some (out, st')) :
    st'.abort = false ∧
    st'.used_card_ids = st.used_card_ids ∪ (cardKeys out).toFinset ∧
    (cardKeys out).Nodup ∧
    (∀ i ∈ cardKeys out, i ∉ st.used_card_ids) ∧
    ((out.length : Int) = max amount 0) ∧
    (∀ c ∈ out, get_when_ticket_wins tracks c =
      .ok ((tracks.length : Int) - from_end)) := by
  obtain ⟨new, h1, h2, h3, h4, h5, h6, h7⟩ :=
    generate_at_point_go_spec tracks options amount from_end fuel 0 [] st
      out st' ha h
  rw [show ([] : List BingoTicket) ++ new = new from rfl] at h1
  subst h1
  refine ⟨h2, h3, h4, h5, by simpa using h6, h7⟩

lemma pyInsert_perm (l : List BingoTicket) (i : Int) (x : BingoTicket) :
    (pyInsert l i x).Perm (x :: l) := by
  unfold pyInsert
  apply List.perm_insertIdx
  dsimp only
  split <;>
    first
      | exact Nat.zero_le _
      | exact min_le_right _ _
      | (split <;>
          first
            | exact Nat.zero_le _
            | exact min_le_right _ _)

/-- What one full `insert_random_cards` loop does: up to permutation it
appends `k` freshly generated tickets, each winning `point` from the end,
with fresh pairwise-distinct keys that end up registered. -/
lemma insert_random_cards_go_spec (tracks : List Song) (options : Options)
    (point num_cards num_on_last : Int) (increment : Frac) (fuel : Nat) :
    ∀ (k : Nat) (start : Frac) (cards0 : List BingoTicket) (st : GenState)
      (out : List BingoTicket) (st' : GenState),
      st.abort = false →
      insert_random_cards_go tracks options point num_cards num_on_last
        increment fuel k start cards0 st = some (out, st') →
      ∃ new, out.Perm (cards0 ++ new) ∧ st'.abort = false ∧
        st'.used_card_ids = st.used_card_ids ∪ (cardKeys new).toFinset ∧
        (cardKeys new).Nodup ∧
        (∀ i ∈ cardKeys new, i ∉ st.used_card_ids) ∧
        new.length = k ∧
        (∀ c ∈ new, get_when_ticket_wins tracks c =
          .ok ((tracks.length : Int) - point)) := by
  intro k
  induction k with
  | zero =>
    intro start cards0 st out st' ha h
    rw [insert_random_cards_go] at h
    cases h
    exact ⟨[], by simp, ha, by simp [cardKeys], by simp [cardKeys],
      by simp [cardKeys], rfl, by simp⟩
  | succ k ih =>
    intro start cards0 st out st' ha h
    rw [insert_random_cards_go] at h
    rcases hrr : randrangeM (Frac.ceil start) (Frac.ceil (start + increment))
        st with _ | ⟨rp, stA⟩ <;> rw [hrr] at h
    · simp at h
    · obtain ⟨hAu, hAa⟩ := randrangeM_state hrr
      simp only at hAu hAa h
      rcases hgen : generate_at_point tracks options 1 point fuel stA with
        _ | ⟨cs, stB⟩ <;> rw [hgen] at h
      · simp at h
      · simp only at h
        obtain ⟨hBa, hBu, hBnodup, hBfresh, hBlen, hBwin⟩ :=
          generate_at_point_spec (hAa.trans ha) hgen
        obtain ⟨c, rfl⟩ : ∃ c, cs = [c] := by
          refine List.length_eq_one.mp ?_
          simp only [max_def] at hBlen
          omega
        simp only [List.head?] at h
        obtain ⟨new2, g1, g2, g3, g4, g5, g6, g7⟩ :=
          ih (start + increment) _ stB out st' hBa h
        refine ⟨c :: new2, ?_, g2, ?_, ?_, ?_, by simp [g6], ?_⟩
        · refine g1.trans ?_
          refine List.Perm.trans (((pyInsert_perm cards0 _ c).append_right
            new2).trans ?_) (List.Perm.refl _)
          exact List.perm_middle.symm
        · rw [g3, hBu, hAu]
          ext x
          simp [cardKeys]
          tauto
        · simp only [cardKeys, List.map_cons, List.nodup_cons]
          refine ⟨fun hmem => ?_, g4⟩
          have := g5 _ hmem
          rw [hBu, hAu] at this
          refine this (Finset.mem_union_right _ ?_)
          simp [cardKeys]
        · intro i hi
          rcases List.mem_cons.mp hi with hi | hi
          · have hfr := hBfresh c.card_id (by simp [cardKeys])
            rw [hAu] at hfr
            exact hi ▸ hfr
          · have := g5 _ hi
            rw [hBu, hAu] at this
            intro hmem
            exact this (Finset.mem_union_left _ hmem)
        · intro c' hc'
          rcases List.mem_cons.mp hc' with hc' | hc'
          · exact hc' ▸ hBwin c (by simp)
          · exact g7 c' hc'

/-- One tier-insertion phase of `generate_all_cards` (including the skip
when the tier count is zero). -/
lemma phase_insert_spec {tracks : List Song} {options : Options}
    {cards1 : List BingoTicket} {point n num_on_last : Int} {fuel : Nat}
    {st1 : GenState} {cards2 : List BingoTicket} {st2 : GenState}
    (ha : st1.abort = false)
    (h : tier_phase tracks options cards1 point n num_on_last fuel st1 =
      some (cards2, st2)) :
    ∃ new, cards2.Perm (cards1 ++ new) ∧ st2.abort = false ∧
      st2.used_card_ids = st1.used_card_ids ∪ (cardKeys new).toFinset ∧
      (cardKeys new).Nodup ∧
      (∀ i ∈ cardKeys new, i ∉ st1.used_card_ids) ∧
      new.length = n.toNat := by
  unfold tier_phase at h
  by_cases hn : n = 0
  · rw [if_neg (by simp [hn])] at h
    cases h
    exact ⟨[], by simp, ha, by simp [cardKeys], by simp [cardKeys],
      by simp [cardKeys], by simp [hn]⟩
  · rw [if_pos hn] at h
    unfold insert_random_cards at h
    obtain ⟨new, g1, g2, g3, g4, g5, g6, _⟩ :=
      insert_random_cards_go_spec tracks options point n num_on_last _ fuel
        n.toNat 0 cards1 st1 cards2 st2 ha h
    exact ⟨new, g1, g2, g3, g4, g5, g6⟩

/-- The loop generating the four extra winners: with the abort flag clear it
appends one fresh ticket per iteration and never signals an abort exit. -/
lemma good_cards_go_spec (tracks : List Song) (options : Options)
    (fuel : Nat) :
    ∀ (k : Nat) (offset : Int) (good0 : List BingoTicket) (st : GenState)
      (flag : Bool) (good : List BingoTicket) (st' : GenState),
      st.abort = false →
      good_cards_go tracks options fuel k offset good0 st =
        some (flag, good, st') →
      flag = false ∧ ∃ new, good = good0 ++ new ∧ st'.abort = false ∧
        st'.used_card_ids = st.used_card_ids ∪ (cardKeys new).toFinset ∧
        (cardKeys new).Nodup ∧
        (∀ i ∈ cardKeys new, i ∉ st.used_card_ids) ∧
        new.length = k := by
  intro k
  induction k with
  | zero =>
    intro offset good0 st flag good st' ha h
    rw [good_cards_go] at h
    cases h
    exact ⟨rfl, [], by simp, ha, by simp [cardKeys], by simp [cardKeys],
      by simp [cardKeys], rfl⟩
  | succ k ih =>
    intro offset good0 st flag good st' ha h
    rw [good_cards_go] at h
    rw [if_neg (by simp [ha])] at h
    rcases hgen : generate_at_point tracks options 1 offset fuel st with
      _ | ⟨cs, stB⟩ <;> rw [hgen] at h
    · simp at h
    · simp only at h
      obtain ⟨hBa, hBu, hBnodup, hBfresh, hBlen, _⟩ :=
        generate_at_point_spec ha hgen
      obtain ⟨c, rfl⟩ : ∃ c, cs = [c] := by
        refine List.length_eq_one.mp ?_
        simp only [max_def] at hBlen
        omega
      obtain ⟨hflag, new2, g1, g2, g3, g4, g5, g6⟩ :=
        ih (offset + 1) (good0 ++ [c]) stB flag good st' hBa h
      refine ⟨hflag, c :: new2, by simpa using g1, g2, ?_, ?_, ?_,
        by simp [g6]⟩
      · rw [g3, hBu]
        ext x
        simp [cardKeys]
        tauto
      · simp only [cardKeys, List.map_cons, List.nodup_cons]
        refine ⟨fun hmem => ?_, g4⟩
        have := g5 _ hmem
        rw [hBu] at this
        refine this (Finset.mem_union_right _ ?_)
        simp [cardKeys]
      · intro i hi
        rcases List.mem_cons.mp hi with hi | hi
        · have hfr := hBfresh c.card_id (by simp [cardKeys])
          exact hi ▸ hfr
        · have := g5 _ hi
          rw [hBu] at this
          intro hmem
          exact this (Finset.mem_union_left _ hmem)

/-- The final random-insertion loop over the shuffled extra winners: a pure
reshuffling of `cards0 ++ rest` that only consumes randomness. -/
lemma insert_good_go_spec (T : Int) (inc : Frac) :
    ∀ (rest : List BingoTicket) (start : Frac) (cards0 : List BingoTicket)
      (st : GenState) (flag : Bool) (out : List BingoTicket) (st' : GenState),
      st.abort = false →
      insert_good_go T inc rest start cards0 st = some (flag, out, st') →
      flag = false ∧ out.Perm (cards0 ++ rest) ∧ st'.abort = false ∧
      st'.used_card_ids = st.used_card_ids := by
  intro rest
  induction rest with
  | nil =>
    intro start cards0 st flag out st' ha h
    rw [insert_good_go] at h
    cases h
    exact ⟨rfl, by simp, ha, rfl⟩
  | cons c rest ih =>
    intro start cards0 st flag out st' ha h
    rw [insert_good_go] at h
    rw [if_neg (by simp [ha])] at h
    rcases hrr : randrangeM (Frac.ceil start) (Frac.ceil (start + inc)) st
      with _ | ⟨rp, stA⟩ <;> rw [hrr] at h
    · simp at h
    · obtain ⟨hAu, hAa⟩ := randrangeM_state hrr
      simp only at hAu hAa h
      obtain ⟨hflag, g1, g2, g3⟩ :=
        ih (start + inc) _ stA flag out st' (hAa.trans ha) h
      refine ⟨hflag, ?_, g2, g3.trans hAu⟩
      refine g1.trans ?_
      refine List.Perm.trans ((pyInsert_perm cards0 _ c).append_right rest) ?_
      exact List.perm_middle.symm

lemma getD_cons_eraseIdx_perm :
    ∀ (l : List BingoTicket) (j : Nat), j < l.length →
      (l.getD j default :: l.eraseIdx j).Perm l := by
  intro l
  induction l with
  | nil => intro j hj; simp at hj
  | cons a l ih =>
    intro j hj
    match j with
    | 0 => simp
    | j + 1 =>
      have hj' : j < l.length := by simpa using hj
      have h1 := ih j hj'
      have h2 : (a :: l).getD (j + 1) default = l.getD j default := by
        simp [List.getD]
      rw [h2, List.eraseIdx_cons_succ]
      exact ((List.Perm.swap a _ _).trans (h1.cons a))

lemma shuffle_go_spec :
    ∀ (k : Nat) (l : List BingoTicket) (st : GenState),
      l.length ≤ k →
      (shuffle_go k l st).1.Perm l ∧
      (shuffle_go k l st).2.used_card_ids = st.used_card_ids ∧
      (shuffle_go k l st).2.abort = st.abort := by
  intro k
  induction k with
  | zero =>
    intro l st _
    rw [shuffle_go]
    exact ⟨List.Perm.refl _, rfl, rfl⟩
  | succ k ih =>
    intro l st h
    rw [shuffle_go]
    by_cases h0 : l.length = 0
    · rw [if_pos h0]
      exact ⟨List.Perm.refl _, rfl, rfl⟩
    · rw [if_neg h0]
      dsimp only
      have hj : st.rand st.ctr % l.length < l.length :=
        Nat.mod_lt _ (Nat.pos_of_ne_zero h0)
      have hlen : (l.eraseIdx (st.rand st.ctr % l.length)).length ≤ k := by
        rw [List.length_eraseIdx]
        simp [hj]
        omega
      obtain ⟨p1, p2, p3⟩ := ih (l.eraseIdx (st.rand st.ctr % l.length))
        { st with ctr := st.ctr + 1 } hlen
      exact ⟨(p1.cons _).trans (getD_cons_eraseIdx_perm l _ hj), p2, p3⟩

lemma shuffle_spec (l : List BingoTicket) (st : GenState) :
    (shuffle l st).1.Perm l ∧
    (shuffle l st).2.used_card_ids = st.used_card_ids ∧
    (shuffle l st).2.abort = st.abort :=
  shuffle_go_spec l.length l st (le_refl _)

lemma subperm_map (f : BingoTicket → Nat) {l₁ l₂ : List BingoTicket}
    (h : l₁.Subperm l₂) : (l₁.map f).Subperm (l₂.map f) := by
  obtain ⟨l, hp, hs⟩ := h
  exact ⟨l.map f, hp.map f, hs.map f⟩

lemma nodup_of_subperm {l₁ l₂ : List Nat} (h : l₁.Subperm l₂)
    (d : l₂.Nodup) : l₁.Nodup := by
  obtain ⟨l, hp, hs⟩ := h
  exact hp.nodup_iff.mp (d.sublist hs)

/-- Without any length hypothesis the interleaving is still a
sub-permutation of the concatenated bands (the loop may drop elements of
bands 2 and 3 once band 1 is exhausted, but never invents or repeats
tickets). -/
lemma interleave3_subperm :
    ∀ (as bs cs : List BingoTicket),
      (interleave3 as bs cs).Subperm (as ++ bs ++ cs) := by
  intro as
  induction as with
  | nil => intro bs cs; exact List.nil_subperm
  | cons a as ih =>
    intro bs cs
    match bs, cs with
    | [], [] =>
      simpa [interleave3] using (List.subperm_cons a).mpr (by simpa using ih [] [])
    | [], c :: cs' =>
      have h1 := (List.subperm_cons c).mpr (by simpa using ih [] cs')
      have h2 := (List.subperm_cons a).mpr h1
      refine h2.trans (List.Perm.subperm ?_)
      simp only [List.append_nil, List.nil_append, List.cons_append,
        List.append_assoc]
      exact (List.perm_middle).symm.cons a
    | b :: bs', [] =>
      have h1 := (List.subperm_cons b).mpr (by simpa using ih bs' [])
      have h2 := (List.subperm_cons a).mpr h1
      refine h2.trans (List.Perm.subperm ?_)
      simp only [List.append_nil, List.nil_append, List.cons_append,
        List.append_assoc]
      exact (List.perm_middle).symm.cons a
    | b :: bs', c :: cs' =>
      have h1 := (List.subperm_cons c).mpr (ih bs' cs')
      have h2 := (List.subperm_cons a).mpr ((List.subperm_cons b).mpr h1)
      refine List.Subperm.trans (by simpa using h2) (List.Perm.subperm ?_)
      simp only [List.cons_append, List.append_assoc]
      refine List.Perm.cons a ?_
      refine List.Perm.trans ?_ (List.perm_middle).symm
      refine List.Perm.cons b ?_
      have hm := @List.perm_middle _ c (as ++ bs') cs'
      simpa [List.append_assoc] using hm.symm

/-- `sort_cards_by_page` never invents or repeats tickets, regardless of
whether the list length matches `number_of_cards`. -/
lemma sort_cards_by_page_subperm (options : Options)
    (cards : List BingoTicket) :
    (sort_cards_by_page options cards).Subperm cards := by
  unfold sort_cards_by_page
  refine (interleave3_subperm _ _ _).trans (List.Perm.subperm ?_)
  rw [List.append_assoc]
  have hdd : cards.drop ((Frac.ceil ((options.number_of_cards : Frac) / 3)).toNat +
        (Frac.floor ((options.number_of_cards : Frac) / 3)).toNat) =
      (cards.drop ((Frac.ceil ((options.number_of_cards : Frac) / 3)).toNat)).drop
        ((Frac.floor ((options.number_of_cards : Frac) / 3)).toNat) := by
    rw [List.drop_drop]
  rw [hdd, List.take_append_drop, List.take_append_drop]

lemma assignNumbers_card_id :
    ∀ (n : Nat) (l : List BingoTicket),
      cardKeys (assignNumbers n l) = cardKeys l := by
  intro n l
  induction l generalizing n with
  | nil => rfl
  | cons c rest ih =>
    have := ih (n + 1)
    simp only [cardKeys] at this
    simp [assignNumbers, cardKeys, this]

lemma assignNumbers_numbers :
    ∀ (n : Nat) (l : List BingoTicket),
      (assignNumbers n l).map BingoTicket.ticket_number =
        (List.range' n l.length).map some := by
  intro n l
  induction l generalizing n with
  | nil => rfl
  | cons c rest ih =>
    simp [assignNumbers, List.range', ih (n + 1)]

lemma assignNumbers_length (n : Nat) (l : List BingoTicket) :
    (assignNumbers n l).length = l.length := by
  have := congrArg List.length (assignNumbers_card_id n l)
  simpa [cardKeys] using this

/-- Composing one phase's new tickets into the running invariant: fresh
pairwise-distinct keys keep the accumulated key list duplicate-free and the
Used-Key Set equal to the set of keys on accepted cards. -/
lemma inv_step {cards1 new2 cards2 : List BingoTicket} {used1 : Finset Nat}
    (hperm : cards2.Perm (cards1 ++ new2))
    (hnodup1 : (cardKeys cards1).Nodup)
    (hused1 : used1 = (cardKeys cards1).toFinset)
    (hnodup2 : (cardKeys new2).Nodup)
    (hfresh : ∀ i ∈ cardKeys new2, i ∉ used1) :
    (cardKeys cards2).Nodup ∧
    used1 ∪ (cardKeys new2).toFinset = (cardKeys cards2).toFinset ∧
    cards2.length = cards1.length + new2.length := by
  have hkeys : (cardKeys cards2).Perm (cardKeys cards1 ++ cardKeys new2) := by
    have := hperm.map BingoTicket.card_id
    simpa [cardKeys] using this
  refine ⟨?_, ?_, ?_⟩
  · refine hkeys.nodup_iff.mpr ?_
    rw [List.nodup_append]
    refine ⟨hnodup1, hnodup2, ?_⟩
    intro x hx1 hx2
    exact hfresh x hx2 (hused1 ▸ List.mem_toFinset.mpr hx1)
  · rw [hused1, ← List.toFinset_append]
    exact (List.toFinset_eq_of_perm _ _ hkeys).symm
  · rw [hperm.length_eq, List.length_append]

/-- The master invariant of `generate_all_cards`: on every completed run
the accepted cards carry pairwise-distinct keys, and - when at least
`MIN_CARDS` tickets were requested - there are exactly `number_of_cards`
cards whose ticket numbers are `1..number_of_cards` in some order. -/
lemma generate_all_cards_spec (tracks : List Song) (options : Options)
    (fuel : Nat) (st : GenState) (cards : List BingoTicket) (st' : GenState)
    (ha : st.abort = false)
    (h : generate_all_cards tracks options fuel st = some (cards, st')) :
    (cardKeys cards).Nodup ∧
    ((MIN_CARDS : Int) ≤ (options.number_of_cards : Int) →
      cards.length = options.number_of_cards ∧
      (cards.map BingoTicket.ticket_number).Perm
        ((List.range' 1 options.number_of_cards).map some)) := by
  unfold generate_all_cards at h
  dsimp only at h
  rcases htc : tier_counts ((options.number_of_cards : Nat) : Int) with
    ⟨n1, n2, n3, n4, off⟩
  rw [htc] at h
  dsimp only at h
  obtain ⟨⟨cards1, st1⟩, h1, h⟩ := Option.bind_eq_some.mp h
  dsimp only at h
  obtain ⟨⟨cards2, st2⟩, h2, h⟩ := Option.bind_eq_some.mp h
  dsimp only at h2 h
  obtain ⟨⟨cards3, st3⟩, h3, h⟩ := Option.bind_eq_some.mp h
  dsimp only at h3 h
  obtain ⟨⟨cards4, st4⟩, h4, h⟩ := Option.bind_eq_some.mp h
  dsimp only at h4 h
  obtain ⟨⟨flag1, good, st5⟩, h5, h⟩ := Option.bind_eq_some.mp h
  dsimp only at h5 h
  obtain ⟨hB1a, hB1u, hB1nodup, hB1fresh, hB1len, _⟩ :=
    generate_at_point_spec
      (show ({st with used_card_ids := ∅} : GenState).abort = false from ha) h1
  have hI1u : st1.used_card_ids = (cardKeys cards1).toFinset := by
    rw [hB1u]
    simp
  obtain ⟨new2, hp2, hA2, hu2, hn2, hf2, hl2⟩ := phase_insert_spec hB1a h2
  obtain ⟨hI2nodup, hI2u, hI2len⟩ :=
    inv_step hp2 hB1nodup hI1u hn2 hf2
  have hI2u' : st2.used_card_ids = (cardKeys cards2).toFinset := by
    rw [hu2]
    exact hI2u
  obtain ⟨new3, hp3, hA3, hu3, hn3, hf3, hl3⟩ := phase_insert_spec hA2 h3
  obtain ⟨hI3nodup, hI3u, hI3len⟩ :=
    inv_step hp3 hI2nodup hI2u' hn3 hf3
  have hI3u' : st3.used_card_ids = (cardKeys cards3).toFinset := by
    rw [hu3]
    exact hI3u
  obtain ⟨new4, hp4, hA4, hu4, hn4, hf4, hl4⟩ := phase_insert_spec hA3 h4
  obtain ⟨hI4nodup, hI4u, hI4len⟩ :=
    inv_step hp4 hI3nodup hI3u' hn4 hf4
  have hI4u' : st4.used_card_ids = (cardKeys cards4).toFinset := by
    rw [hu4]
    exact hI4u
  obtain ⟨hflag1, newg, hg1, hg3, hg3u, hg4, hg5, hg6⟩ :=
    good_cards_go_spec tracks options fuel 4 off [] st4 flag1 good st5 hA4 h5
  simp only [List.nil_append] at hg1
  subst hg1
  subst hflag1
  rw [if_neg Bool.false_ne_true] at h
  rcases hsh : shuffle good st5 with ⟨shuffled, st6⟩
  rw [hsh] at h
  dsimp only at h
  obtain ⟨hshp, hshu, hsha⟩ := shuffle_spec good st5
  rw [hsh] at hshp hshu hsha
  dsimp only at hshp hshu hsha
  obtain ⟨⟨flag2, cards5, st7⟩, h7, h⟩ := Option.bind_eq_some.mp h
  dsimp only at h7 h
  obtain ⟨hflag2, hp5, hA5, hu5⟩ :=
    insert_good_go_spec _ _ shuffled 0 cards4 st6 flag2 cards5 st7
      (by rw [hsha]; exact hg3) h7
  subst hflag2
  rw [if_neg Bool.false_ne_true] at h
  have hshkeys : (cardKeys shuffled).Perm (cardKeys good) := by
    have := hshp.map BingoTicket.card_id
    simpa [cardKeys] using this
  have hshnodup : (cardKeys shuffled).Nodup := hshkeys.nodup_iff.mpr hg4
  have hshfresh : ∀ i ∈ cardKeys shuffled, i ∉ (cardKeys cards4).toFinset := by
    intro i hi
    rw [← hI4u']
    exact hg5 i (hshkeys.mem_iff.mp hi)
  obtain ⟨hI5nodup, hI5u, hI5len⟩ :=
    inv_step hp5 hI4nodup rfl hshnodup hshfresh
  constructor
  · -- C1 part: pairwise-distinct keys, with or without page ordering
    rcases hpg : options.page_order with _ | _ <;> rw [hpg] at h
    · rw [if_neg Bool.false_ne_true] at h
      simp only [pure, Option.some.injEq, Prod.mk.injEq] at h
      obtain ⟨rfl, rfl⟩ := h
      rw [show cardKeys (assignNumbers 1 cards5) = cardKeys cards5 from
        assignNumbers_card_id 1 cards5]
      exact hI5nodup
    · rw [if_pos rfl] at h
      simp only [pure, Option.some.injEq, Prod.mk.injEq] at h
      obtain ⟨rfl, rfl⟩ := h
      refine nodup_of_subperm
        (subperm_map _ (sort_cards_by_page_subperm options _)) ?_
      have hk := assignNumbers_card_id 1 cards5
      simp only [cardKeys] at hk
      rw [hk]
      exact hI5nodup
  · -- C2 part: exact count and ticket numbers 1..T
    intro hT
    have htf := tier_counts_spec ((options.number_of_cards : Nat) : Int)
      (by simpa [MIN_CARDS] using hT)
    rw [htc] at htf
    dsimp only at htf
    obtain ⟨ht1, ht2, ht3, ht4, ht5⟩ := htf
    have hshlen : shuffled.length = good.length := hshp.length_eq
    have hlen5 : cards5.length = options.number_of_cards := by omega
    rcases hpg : options.page_order with _ | _ <;> rw [hpg] at h
    · rw [if_neg Bool.false_ne_true] at h
      simp only [pure, Option.some.injEq, Prod.mk.injEq] at h
      obtain ⟨rfl, rfl⟩ := h
      refine ⟨by rw [assignNumbers_length]; exact hlen5, ?_⟩
      rw [assignNumbers_numbers, hlen5]
    · rw [if_pos rfl] at h
      simp only [pure, Option.some.injEq, Prod.mk.injEq] at h
      obtain ⟨rfl, rfl⟩ := h
      have hsp := sort_cards_by_page_perm options (assignNumbers 1 cards5)
        (by rw [assignNumbers_length]; exact hlen5)
      refine ⟨by rw [hsp.length_eq, assignNumbers_length]; exact hlen5, ?_⟩
      refine (hsp.map BingoTicket.ticket_number).trans ?_
      rw [assignNumbers_numbers, hlen5]

/-- C5: assuming no abort, a completed `generate_at_point(tracks, amount,
from_end)` run returns exactly `amount` tickets, each winning exactly at
position `len(tracks) - from_end`; rejected tickets' keys are released from
the Used-Key Set while accepted tickets' keys remain registered, so the set
grows by exactly the returned tickets' keys. -/
theorem C5_generate_at_point_targets (tracks : List Song) (options : Options)
    (amount from_end : Int) (fuel : Nat) (st : GenState)
    (cards : List BingoTicket) (st' : GenState)
    (ha : st.abort = false) (hamt : 0 ≤ amount)
    (h : generate_at_point tracks options amount from_end fuel st =
      some (cards, st')) :
    (cards.length : Int) = amount ∧
    (∀ c ∈ cards, get_when_ticket_wins tracks c =
      .ok ((tracks.length : Int) - from_end)) ∧
    st'.used_card_ids =
      st.used_card_ids ∪ (cards.map BingoTicket.card_id).toFinset ∧
    (cards.map BingoTicket.card_id).Nodup := by
  obtain ⟨hA, hU, hN, hF, hL, hW⟩ := generate_at_point_spec ha h
  refine ⟨by rw [hL]; omega, hW, hU, hN⟩

/-- Concrete instantiation of `C5_generate_at_point_targets`: one
single-song ticket targeted at the final track of a two-track play order. -/
theorem C5_generate_at_point_targets_witness :
    ∃ cards st',
      generate_at_point [⟨1, 2⟩, ⟨2, 3⟩]
        { songs_per_ticket := 1, number_of_cards := 15 } 1 0 50 stC5 =
          some (cards, st') ∧
      (cards.length : Int) = 1 ∧
      ∀ c ∈ cards, get_when_ticket_wins [⟨1, 2⟩, ⟨2, 3⟩] c = .ok 2 := by
  have hs : (generate_at_point [⟨1, 2⟩, ⟨2, 3⟩]
      { songs_per_ticket := 1, number_of_cards := 15 } 1 0 50 stC5).isSome =
        true := rfl
  obtain ⟨⟨cards, st'⟩, hsome⟩ := Option.isSome_iff_exists.mp hs
  have spec := C5_generate_at_point_targets [⟨1, 2⟩, ⟨2, 3⟩]
    { songs_per_ticket := 1, number_of_cards := 15 } 1 0 50 stC5 cards st'
    rfl (by decide) hsome
  exact ⟨cards, st', hsome, spec.1, by simpa using spec.2.1⟩

/-- C1: on every completed run of `generate_all_cards` (no abort), the
ticket keys of the returned tickets are pairwise distinct: a composed
ticket whose key collides with the Used-Key Set is redrawn from scratch, a
ticket rejected for its win point releases its key, and every accepted
ticket's key stays registered. -/
theorem C1_all_ticket_keys_distinct (tracks : List Song) (options : Options)
    (fuel : Nat) (st : GenState) (cards : List BingoTicket) (st' : GenState)
    (ha : st.abort = false)
    (h : generate_all_cards tracks options fuel st = some (cards, st')) :
    (cards.map BingoTicket.card_id).Nodup :=
  (generate_all_cards_spec tracks options fuel st cards st' ha h).1

/-- C2: on every completed run of `generate_all_cards` with at least
`MIN_CARDS` requested tickets (no abort), the scheduler returns exactly
`number_of_cards` tickets whose ticket numbers are exactly `1..T` with no
gaps or repeats — across the decay arithmetic, the fold-back branch and the
remainder correction, and also under the final page reordering. -/
theorem C2_scheduler_count_and_numbering (tracks : List Song)
    (options : Options) (fuel : Nat) (st : GenState)
    (cards : List BingoTicket) (st' : GenState)
    (ha : st.abort = false) (hT : MIN_CARDS ≤ options.number_of_cards)
    (h : generate_all_cards tracks options fuel st = some (cards, st')) :
    cards.length = options.number_of_cards ∧
    (cards.map BingoTicket.ticket_number).Perm
      ((List.range' 1 options.number_of_cards).map some) :=
  (generate_all_cards_spec tracks options fuel st cards st' ha h).2
    (by exact_mod_cast hT)

/-- Concrete instantiation of `C1_all_ticket_keys_distinct` on a completed
15-ticket game. -/
theorem C1_all_ticket_keys_distinct_witness :
    ∃ cards st',
      generate_all_cards songsC12 optsC12 1000 stC12 = some (cards, st') ∧
      (cards.map BingoTicket.card_id).Nodup := by
  have hs : (generate_all_cards songsC12 optsC12 1000 stC12).isSome =
      true := rfl
  obtain ⟨⟨cards, st'⟩, hsome⟩ := Option.isSome_iff_exists.mp hs
  exact ⟨cards, st', hsome,
    C1_all_ticket_keys_distinct songsC12 optsC12 1000 stC12 cards st' rfl
      hsome⟩

/-- Concrete instantiation of `C2_scheduler_count_and_numbering` on the same
completed 15-ticket game. -/
theorem C2_scheduler_count_and_numbering_witness :
    ∃ cards st',
      generate_all_cards songsC12 optsC12 1000 stC12 = some (cards, st') ∧
      cards.length = 15 ∧
      (cards.map BingoTicket.ticket_number).Perm
        ((List.range' 1 15).map some) := by
  have hs : (generate_all_cards songsC12 optsC12 1000 stC12).isSome =
      true := rfl
  obtain ⟨⟨cards, st'⟩, hsome⟩ := Option.isSome_iff_exists.mp hs
  have spec := C2_scheduler_count_and_numbering songsC12 optsC12 1000 stC12
    cards st' rfl (by decide) hsome
  exact ⟨cards, st', hsome, spec.1, spec.2⟩
